import Mathlib

/-!
Verification development for the TelecomX ETL/EDA pipeline
(`telecomx_etl_eda.py`).

The program is a linear batch pipeline over a rectangular table:
load JSON -> normalize schema -> deduplicate -> derive a feature ->
aggregate.  We embed the table shallowly, column-oriented (as pandas is):
a table is a list of named columns, and each cell is a `Value`.

Conventions of the embedding:
- pandas missing markers (NaN / None) are both modelled as `Value.null`;
- machine floats are modelled as exact rationals `ℚ` (no claim depends on
  rounding); a float NaN result is modelled as `Option.none` or
  `Value.null`;
- operations that can raise (`KeyError` from `groupby` / column selection,
  `json_normalize` on a non-record) return `Except String`.
-/

mutual
/-- JSON values, as produced by `json.load`.  Arrays and objects carry
their own list types so that decidable equality can be derived. -/
inductive Json where
  | null : Json
  | bool (b : Bool) : Json
  | num (q : ℚ) : Json
  | str (s : String) : Json
  | arr (elems : JsonList) : Json
  | obj (fields : JsonFields) : Json
deriving DecidableEq

/-- A list of JSON values (elements of a JSON array). -/
inductive JsonList where
  | nil : JsonList
  | cons (head : Json) (tail : JsonList) : JsonList
deriving DecidableEq

/-- The fields of a JSON object, in insertion order (Python dicts keep
insertion order, and the source iterates `obj.items()`). -/
inductive JsonFields where
  | nil : JsonFields
  | cons (key : String) (val : Json) (tail : JsonFields) : JsonFields
deriving DecidableEq
end

/-- A JSON array's elements as an ordinary list. -/
def JsonList.toList : JsonList → List Json
  | .nil => []
  | .cons x xs => x :: xs.toList

/-- A JSON object's fields as an ordinary list. -/
def JsonFields.toList : JsonFields → List (String × Json)
  | .nil => []
  | .cons k v fs => (k, v) :: fs.toList

/-- A cell of a table.  `null` stands for a pandas missing marker
(NaN or None); `arr` is a raw JSON list kept as an object cell, as
`json_normalize` keeps lists un-flattened. -/
inductive Value where
  | null : Value
  | bool (b : Bool) : Value
  | num (q : ℚ) : Value
  | str (s : String) : Value
  | arr (elems : JsonList) : Value
deriving DecidableEq

/-- A table is an ordered list of named columns (pandas is
column-oriented); rows are read off positionally across columns. -/
abbrev Table := List (String × List Value)

/-- `df[c]`: the first column named `c`. -/
def findCol : Table → String → Option (List Value)
  | [], _ => none
  | p :: ps, c => if p.1 = c then some p.2 else findCol ps c

/-- `c in df.columns`. -/
def hasCol (t : Table) (c : String) : Bool :=
  (findCol t c).isSome

/-- The column named `c`, defaulting to the empty column. -/
def colOf (t : Table) (c : String) : List Value :=
  (findCol t c).getD []

/-- `len(df)`: the row count (length of the first column; 0 if no
columns).  All tables built by the loader have equal column lengths. -/
def nrows (t : Table) : Nat :=
  match t with
  | [] => 0
  | p :: _ => p.2.length

/- ------------------------------------------------------------------
Loader: `to_dataframe` (`telecomx_etl_eda.py`, lines 21-32), built on
`pd.json_normalize(·, sep="_")`.
------------------------------------------------------------------ -/

/-- One record's flattening under `json_normalize(sep="_")`: nested
objects are expanded into underscore-joined key paths; every other
value is a leaf. -/
def flattenFields (pre : String) : JsonFields → List (String × Json)
  | .nil => []
  | .cons k v rest =>
    let key := if pre = "" then k else pre ++ "_" ++ k
    (match v with
     | Json.obj fs => flattenFields key fs
     | leaf => [(key, leaf)]) ++ flattenFields pre rest

/-- Flatten each record; `json_normalize` raises when a record is not
an object (dict). -/
def flattenRecords : List Json → Except String (List (List (String × Json)))
  | [] => .ok []
  | Json.obj fs :: rest =>
      match flattenRecords rest with
      | .error e => .error e
      | .ok rs => .ok (flattenFields "" fs :: rs)
  | _ :: _ => .error "json_normalize: record is not a dict"

/-- Append a key if it is not present yet (first-appearance order). -/
def insertKey (acc : List String) (k : String) : List String :=
  if acc.contains k then acc else acc ++ [k]

/-- Columns of `json_normalize`: union of the flattened key paths over
all records, in order of first appearance. -/
def collectKeys (flats : List (List (String × Json))) : List String :=
  flats.foldl (fun acc row => row.foldl (fun a p => insertKey a p.1) acc) []

/-- A flattened JSON leaf as a table cell.  (`Json.obj` never occurs as
a leaf of `flattenFields`; it is mapped to `null` for totality.) -/
def jsonToValue : Json → Value
  | Json.null => Value.null
  | Json.bool b => Value.bool b
  | Json.num q => Value.num q
  | Json.str s => Value.str s
  | Json.arr xs => Value.arr xs
  | Json.obj _ => Value.null

/-- Cell of a record at a key path; a missing key yields NaN. -/
def rowLookup (row : List (String × Json)) (k : String) : Value :=
  match row with
  | [] => Value.null
  | p :: rest => if p.1 = k then jsonToValue p.2 else rowLookup rest k

/-- `pd.json_normalize(recs, sep="_")`: one row per record, columns in
first-appearance order of the flattened key paths. -/
def normalizeRecords (recs : List Json) : Except String Table :=
  match flattenRecords recs with
  | .error e => .error e
  | .ok flats =>
      .ok ((collectKeys flats).map fun k => (k, flats.map fun row => rowLookup row k))

/-- `arr`-pattern helper: the element list of a JSON array, else none. -/
def arrOf : Json → Option JsonList
  | Json.arr xs => some xs
  | _ => none

/-- The first array-valued field of a top-level object (the source
iterates `obj.items()` in insertion order). -/
def firstArrField : JsonFields → Option JsonList
  | .nil => none
  | .cons _ v rest =>
      match arrOf v with
      | some xs => some xs
      | none => firstArrField rest

/-- `to_dataframe` (lines 21-32): a list is normalized directly; a dict
uses its first list-valued field as payload, else is treated as a single
record; anything else yields `pd.DataFrame()` — an empty table. -/
def to_dataframe : Json → Except String Table
  | Json.arr recs => normalizeRecords recs.toList
  | Json.obj fields =>
      match firstArrField fields with
      | some xs => normalizeRecords xs.toList
      | none => normalizeRecords [Json.obj fields]
  | _ => .ok []

/- ------------------------------------------------------------------
Cell-level string and numeric helpers (pandas `.astype(str)`,
`.str.strip()`, `.str.title()`, `pd.to_numeric(errors="coerce")`).
------------------------------------------------------------------ -/

/-- Leading and trailing whitespace removed (`.strip()`), on the
character list (string primitives are re-implemented on `List Char`
so that every definition evaluates by reduction). -/
def trimChars (cs : List Char) : List Char :=
  ((cs.dropWhile Char.isWhitespace).reverse.dropWhile Char.isWhitespace).reverse

/-- `.strip()` of a Python string. -/
def stripStr (s : String) : String :=
  String.mk (trimChars s.data)

/-- `.replace(a, b)` for one-character patterns (the only patterns the
source uses) replaces every occurrence of the character. -/
def replaceChar (a b : Char) (s : String) : String :=
  String.mk (s.data.map fun c => if c = a then b else c)

/-- `.lower()` of a Python string (ASCII). -/
def lowerStr (s : String) : String :=
  String.mk (s.data.map Char.toLower)

/-- Python `str.title()` on a character list: a cased character is
uppercased when the previous character is not alphabetic, lowercased
otherwise (ASCII approximation of the CPython rule). -/
def titleChars : List Char → Bool → List Char
  | [], _ => []
  | c :: rest, prevAlpha =>
      (if prevAlpha then c.toLower else c.toUpper) :: titleChars rest c.isAlpha

/-- Python `str.title()`. -/
def titleCase (s : String) : String :=
  String.mk (titleChars s.data false)

/-- `.astype(str)` on one cell: NaN/None render as missing-marker text
(both modelled as "nan"); numbers with denominator 1 render as the
integer text.  (Non-integer float and list renderings are abstracted;
no claim depends on them.) -/
def astypeStr : Value → String
  | Value.null => "nan"
  | Value.bool b => if b then "True" else "False"
  | Value.num q => if q.den = 1 then toString q.num else toString q.num ++ "/" ++ toString q.den
  | Value.str s => s
  | Value.arr _ => "[list]"

/-- Value of a digit run, as a natural number. -/
def digitsNat (cs : List Char) : ℕ :=
  cs.foldl (fun n c => 10 * n + (c.toNat - 48)) 0

/-- Parse a decimal numeral (optional sign, optional fractional part),
as `float(...)` accepts for the inputs this dataset carries.
(Exponent notation is not modelled; no claim uses it.) -/
def parseRat (s : String) : Option ℚ :=
  let cs := trimChars s.data
  let sgn : ℤ × List Char :=
    match cs with
    | '-' :: r => (-1, r)
    | '+' :: r => (1, r)
    | _ => (1, cs)
  let intPart := sgn.2.takeWhile Char.isDigit
  let rest := sgn.2.drop intPart.length
  match rest with
  | [] => if intPart.isEmpty then none else some ((sgn.1 * (digitsNat intPart : ℤ) : ℤ) : ℚ)
  | '.' :: frac =>
      if frac.all Char.isDigit && !(intPart.isEmpty && frac.isEmpty) then
        some ((sgn.1 : ℚ) * ((digitsNat intPart : ℚ) + (digitsNat frac : ℚ) / (10 : ℚ) ^ frac.length))
      else none
  | _ => none

/-- `pd.to_numeric(·, errors="coerce")` on one cell: numbers pass
through, booleans become 0/1, parseable text parses, everything else
becomes missing. -/
def toNumeric : Value → Option ℚ
  | Value.num q => some q
  | Value.bool b => some (if b then 1 else 0)
  | Value.str s => parseRat s
  | _ => none

/- ------------------------------------------------------------------
Schema normalizer: `standardize_columns` (lines 41-125).
------------------------------------------------------------------ -/

/-- Line 43: strip the column name and replace spaces and hyphens with
underscores. -/
def canonName (c : String) : String :=
  replaceChar '-' '_' (replaceChar ' ' '_' (stripStr c))

/-- Lines 46-69: the case-insensitive rename table. -/
def rename_map : List (String × String) :=
  [("customerid", "customerID"), ("customer_id", "customerID"),
   ("gender", "gender"), ("seniorcitizen", "SeniorCitizen"),
   ("partner", "Partner"), ("dependents", "Dependents"),
   ("tenure", "tenure"), ("phoneservice", "PhoneService"),
   ("multiplelines", "MultipleLines"), ("internetservice", "InternetService"),
   ("onlinesecurity", "OnlineSecurity"), ("onlinebackup", "OnlineBackup"),
   ("deviceprotection", "DeviceProtection"), ("techsupport", "TechSupport"),
   ("streamingtv", "StreamingTV"), ("streamingmovies", "StreamingMovies"),
   ("contract", "Contract"), ("paperlessbilling", "PaperlessBilling"),
   ("paymentmethod", "PaymentMethod"), ("monthlycharges", "MonthlyCharges"),
   ("totalcharges", "TotalCharges"), ("churn", "Churn")]

/-- Lookup in an association list of strings. -/
def lookupStr : List (String × String) → String → Option String
  | [], _ => none
  | p :: ps, k => if p.1 = k then some p.2 else lookupStr ps k

/-- Lines 43, 71-77: canonicalize a column name, then apply the
case-insensitive rename table. -/
def renameCol (c : String) : String :=
  let c1 := canonName c
  match lookupStr rename_map (lowerStr c1) with
  | some r => r
  | none => c1

/-- Rename step applied to the whole header. -/
def renameStep (t : Table) : Table :=
  t.map fun p => (renameCol p.1, p.2)

/-- Apply a name-indexed transformation to every column. -/
def tableMap (g : String → List Value → List Value) (t : Table) : Table :=
  t.map fun p => (p.1, g p.1 p.2)

/-- A column is object-dtype when it holds text or list cells (purely
numeric/boolean/missing columns are numeric or bool dtype). -/
def isObjectCol (vs : List Value) : Bool :=
  vs.any fun v =>
    match v with
    | Value.str _ => true
    | Value.arr _ => true
    | _ => false

/-- Lines 80-81, one cell: `.astype(str).str.strip()`. -/
def stripCell (v : Value) : Value :=
  Value.str (stripStr (astypeStr v))

/-- Lines 80-81: every object-dtype column is stringified and
trimmed. -/
def stripStep (t : Table) : Table :=
  tableMap (fun _ vs => if isObjectCol vs then vs.map stripCell else vs) t

/-- Line 84: the columns coerced to numeric. -/
def numericCols : List String := ["MonthlyCharges", "TotalCharges", "tenure"]

/-- Lines 84-86, one cell of `pd.to_numeric(errors="coerce")`. -/
def coerceCell (v : Value) : Value :=
  match toNumeric v with
  | some q => Value.num q
  | none => Value.null

/-- Lines 84-86: safe numeric conversion of the three numeric columns. -/
def coerceStep (t : Table) : Table :=
  tableMap (fun n vs => if numericCols.contains n then vs.map coerceCell else vs) t

/-- Line 90, one cell: `.astype(str).str.title()`. -/
def churnCell (v : Value) : Value :=
  Value.str (titleCase (astypeStr v))

/-- Line 91 mask: `Churn.isin(["Yes", "No"])`. -/
def churnKeep (v : Value) : Bool :=
  v = Value.str "Yes" || v = Value.str "No"

/-- Keep the rows whose mask bit is true (boolean-mask row selection;
the mask has the table's row count on well-formed tables). -/
def applyMask : List Bool → List Value → List Value
  | b :: ms, v :: vs => if b then v :: applyMask ms vs else applyMask ms vs
  | _, _ => []

/-- Row filtering applied to every column. -/
def filterMask (t : Table) (mask : List Bool) : Table :=
  tableMap (fun _ vs => applyMask mask vs) t

/-- Line 90: title-case every cell of the `Churn` column. -/
def churnMapStep (t : Table) : Table :=
  tableMap (fun n vs => if n = "Churn" then vs.map churnCell else vs) t

/-- Line 91: keep the rows whose (already title-cased) `Churn` cell is
Yes or No. -/
def churnFilterStep (t2 : Table) : Table :=
  filterMask t2 ((colOf t2 "Churn").map churnKeep)

/-- Lines 89-91: title-case `Churn` and keep only Yes/No rows (a
filtering step, skipped when the column is absent). -/
def churnStep (t : Table) : Table :=
  if hasCol t "Churn" then churnFilterStep (churnMapStep t) else t

/-- Lines 94-102: the service-flag columns subject to placeholder
collapsing. -/
def serviceCols : List String :=
  ["OnlineSecurity", "OnlineBackup", "DeviceProtection", "TechSupport",
   "StreamingTV", "StreamingMovies", "MultipleLines"]

/-- Lines 104-111: the placeholder variants collapsed to "No". -/
def collapseKeys : List String :=
  ["No internet service", "No phone service",
   "Sem serviço de internet", "Sem serviço de telefone"]

/-- One cell of the `.replace({...})` placeholder collapsing. -/
def collapseCell (v : Value) : Value :=
  match v with
  | Value.str s => if collapseKeys.contains s then Value.str "No" else Value.str s
  | other => other

/-- Lines 94-111: collapse placeholders on each service-flag column. -/
def collapseStep (t : Table) : Table :=
  tableMap (fun n vs => if serviceCols.contains n then vs.map collapseCell else vs) t

/-- Count of cells that `pd.to_numeric` parses (the `notna()` count of
the coerced column). -/
def numCount (vs : List Value) : Nat :=
  vs.countP fun v => (toNumeric v).isSome

/-- Lines 114-119 on the column: if the mean of the parseable-indicator
exceeds 1/2, map parsed-1 to "Yes" and everything else to "No";
otherwise title-case the text.  The float test `notna().mean() > 0.5`
is computed by cross-multiplication (exact on the rationals, and false
on the empty column exactly as the float test is false on NaN); the
equivalence with the rational mean is proved in `seniorMean_iff`. -/
def seniorNormalize (vs : List Value) : List Value :=
  if vs.length < 2 * numCount vs then
    vs.map fun v => Value.str (if toNumeric v = some 1 then "Yes" else "No")
  else
    vs.map fun v => Value.str (titleCase (astypeStr v))

/-- Lines 114-119: `SeniorCitizen` normalization (a no-op when the
column is absent, as `tableMap` touches only matching names). -/
def seniorStep (t : Table) : Table :=
  tableMap (fun n vs => if n = "SeniorCitizen" then seniorNormalize vs else vs) t

/-- Decidable membership in a list of cells. -/
def memB (v : Value) : List Value → Bool
  | [] => false
  | w :: ws => if v = w then true else memB v ws

/-- The keep-first boolean mask of `drop_duplicates` (a row is kept when
its key has not been seen before). -/
def firstMaskAux (seen : List Value) : List Value → List Bool
  | [] => []
  | v :: vs => (!memB v seen) :: firstMaskAux (v :: seen) vs

/-- `df.duplicated(subset=[id]).map(not)`: the keep-first mask. -/
def firstMask (vs : List Value) : List Bool :=
  firstMaskAux [] vs

/-- Lines 121-123: drop rows with a duplicate `customerID`, keeping the
first occurrence. -/
def dedupStep (t : Table) : Table :=
  if hasCol t "customerID" then filterMask t (firstMask (colOf t "customerID"))
  else t

/-- `standardize_columns` up to (not including) the duplicate drop. -/
def preDedup (t : Table) : Table :=
  seniorStep (collapseStep (churnStep (coerceStep (stripStep (renameStep t)))))

/-- `standardize_columns` (lines 41-125): rename, strip, coerce,
normalize `Churn`, collapse placeholders, normalize `SeniorCitizen`,
drop duplicate identifiers. -/
def standardize_columns (t : Table) : Table :=
  dedupStep (preDedup t)

/- ------------------------------------------------------------------
Feature deriver: `create_features` (lines 128-134).
------------------------------------------------------------------ -/

/-- One row of `np.where(tenure > 0, TotalCharges / tenure, nan)`:
NaN comparisons are false, and NaN propagates through division. -/
def avgCell (tn tc : Value) : Value :=
  match tn with
  | Value.num a =>
      if 0 < a then
        match tc with
        | Value.num b => Value.num (b / a)
        | _ => Value.null
      else Value.null
  | _ => Value.null

/-- `df[c] = vs`: overwrite the column in place when it exists, else
append it at the end (pandas column assignment). -/
def setCol (t : Table) (c : String) (vs : List Value) : Table :=
  if hasCol t c then t.map (fun p => if p.1 = c then (c, vs) else p)
  else t ++ [(c, vs)]

/-- `create_features` (lines 128-134): add `AverageMonthlyCharge` when
both source columns exist, else return the table unchanged. -/
def create_features (t : Table) : Table :=
  if hasCol t "TotalCharges" && hasCol t "tenure" then
    setCol t "AverageMonthlyCharge"
      (List.zipWith avgCell (colOf t "tenure") (colOf t "TotalCharges"))
  else t

/- ------------------------------------------------------------------
Aggregator: `churn_rate` (lines 137-140) and `eda_and_plots`
(lines 184-224).
------------------------------------------------------------------ -/

/-- Count of cells equal to the text "Yes" (`.eq("Yes")`). -/
def countYes (vs : List Value) : Nat :=
  vs.countP fun v => v = Value.str "Yes"

/-- Count of cells equal to the text "No". -/
def countNo (vs : List Value) : Nat :=
  vs.countP fun v => v = Value.str "No"

/-- Count of non-missing cells. -/
def countNonMissing (vs : List Value) : Nat :=
  vs.countP fun v => v ≠ Value.null

/-- `churn_rate` (lines 137-140): NaN (`none`) without a `Churn`
column; otherwise the mean of the Yes-indicator times 100 (the mean of
an empty column is NaN). -/
def churn_rate (t : Table) : Option ℚ :=
  match findCol t "Churn" with
  | none => none
  | some vs =>
      if vs.length = 0 then none
      else some ((countYes vs : ℚ) / (vs.length : ℚ) * 100)

/-- Distinct cell values in first-occurrence order: a value is kept
when it has not been seen among the earlier elements. -/
def dedupFirstAux (seen : List Value) : List Value → List Value
  | [] => []
  | v :: vs =>
      if memB v seen then dedupFirstAux (v :: seen) vs
      else v :: dedupFirstAux (v :: seen) vs

/-- Distinct cell values in first-occurrence order. -/
def dedupFirst (l : List Value) : List Value :=
  dedupFirstAux [] l

/-- First-occurrence deduplication, stated recursively: keep the head,
drop its later duplicates, recurse (proved equal to `dedupFirst` in
`dedupFirst_eq_dedupRec`). -/
def dedupRec : List Value → List Value
  | [] => []
  | v :: rest => v :: dedupRec (rest.filter fun w => w ≠ v)
termination_by l => l.length
decreasing_by
  simp_wf
  exact Nat.lt_succ_of_le (List.length_filter_le _ _)

/-- Byte-wise lexicographic order on characters lists (group keys are
plain ASCII text in this dataset). -/
def charsLe : List Char → List Char → Bool
  | [], _ => true
  | _ :: _, [] => false
  | a :: as, b :: bs =>
      if a.toNat < b.toNat then true
      else if b.toNat < a.toNat then false
      else charsLe as bs

/-- Rank used to order group keys of distinct shapes deterministically
(pandas sorts group keys; keys of one groupby share a shape here). -/
def valRank : Value → Nat
  | Value.null => 0
  | Value.bool _ => 1
  | Value.num _ => 2
  | Value.str _ => 3
  | Value.arr _ => 4

/-- Group-key order: numbers by value, text lexicographically. -/
def valLeB (a b : Value) : Bool :=
  match a, b with
  | Value.num p, Value.num q => decide (p ≤ q)
  | Value.str s, Value.str u => charsLe s.data u.data
  | x, y => decide (valRank x ≤ valRank y)

/-- Insert into a sorted list of keys. -/
def insertSorted (v : Value) : List Value → List Value
  | [] => [v]
  | w :: ws => if valLeB v w then v :: w :: ws else w :: insertSorted v ws

/-- Sort group keys ascending (`groupby(..., sort=True)`). -/
def sortVals (l : List Value) : List Value :=
  l.foldr insertSorted []

/-- The group keys of a column: distinct non-missing values, sorted
(`groupby` drops NaN keys and sorts the remaining ones). -/
def groupKeys (vs : List Value) : List Value :=
  sortVals (dedupFirst (vs.filter fun v => v ≠ Value.null))

/-- Lines 191-194, one category column: per group key, the mean of the
churn Yes-indicator times 100 (groups induced from the data are never
empty). -/
def groupRates (catCol churnCol : List Value) : List (Value × ℚ) :=
  let pairs := catCol.zip churnCol
  (groupKeys catCol).map fun k =>
    let grp := pairs.filter fun p => p.1 = k
    (k, (grp.countP (fun p => p.2 = Value.str "Yes") : ℚ) / (grp.length : ℚ) * 100)

/-- Lines 197-199, one numeric column: group the numeric cells by the
`Churn` key and record the non-missing count and mean per group.  (The
remaining `describe()` statistics — std, min, quartiles, max — are
functions of the same grouped values; std is irrational so only the
rational ones are computed.) -/
def groupDescribe (churnCol numCol : List Value) : List (Value × Nat × Option ℚ) :=
  let pairs := churnCol.zip numCol
  (groupKeys churnCol).map fun k =>
    let vals := (pairs.filter fun p => p.1 = k).filterMap fun p =>
      match p.2 with
      | Value.num q => some q
      | _ => none
    (k, vals.length, if vals.length = 0 then none else some (vals.sum / (vals.length : ℚ)))

/-- Lines 191-194, one loop iteration: the step checks only the
category column's presence; selecting `["Churn"]` after the groupby
raises a `KeyError` when `Churn` is absent. -/
def rateFor (t : Table) (cat : String) : Except String (Option (String × List (Value × ℚ))) :=
  if hasCol t cat then
    match findCol t "Churn" with
    | none => .error "KeyError: Column not found: Churn"
    | some churnCol => .ok (some (cat, groupRates (colOf t cat) churnCol))
  else .ok none

/-- Lines 197-199, one loop iteration: the step checks only the numeric
column's presence; `df.groupby("Churn")` raises a `KeyError` when
`Churn` is absent. -/
def describeFor (t : Table) (num : String) :
    Except String (Option (String × List (Value × Nat × Option ℚ))) :=
  if hasCol t num then
    match findCol t "Churn" with
    | none => .error "KeyError: Churn"
    | some churnCol => .ok (some (num, groupDescribe churnCol (colOf t num)))
  else .ok none

/-- Run the loop steps in order, skipping absent columns and aborting
at the first raised error (the Python `for` loop). -/
def collectSteps {α : Type} (f : String → Except String (Option α)) :
    List String → Except String (List α)
  | [] => .ok []
  | c :: rest =>
      match f c with
      | .error e => .error e
      | .ok none => collectSteps f rest
      | .ok (some x) =>
          match collectSteps f rest with
          | .error e => .error e
          | .ok xs => .ok (x :: xs)

/-- Line 191: the category columns of the rate loop. -/
def catList : List String :=
  ["Contract", "PaymentMethod", "InternetService", "SeniorCitizen",
   "Partner", "Dependents"]

/-- Line 197: the numeric columns of the describe loop. -/
def numList : List String :=
  ["MonthlyCharges", "TotalCharges", "AverageMonthlyCharge", "tenure"]

/-- Lines 201-223: the chart files produced; every plot guards all the
columns it touches (including `Churn`), so this stage cannot raise. -/
def plotNames (t : Table) : List String :=
  (if hasCol t "Churn" then ["plot_churn_distribuicao.png"] else []) ++
  (if hasCol t "Contract" && hasCol t "Churn" then ["plot_churn_por_contrato.png"] else []) ++
  (if hasCol t "PaymentMethod" && hasCol t "Churn" then ["plot_churn_por_pagamento.png"] else []) ++
  (if hasCol t "InternetService" && hasCol t "Churn" then ["plot_churn_por_internet.png"] else []) ++
  (if hasCol t "MonthlyCharges" && hasCol t "Churn" then ["plot_monthlycharges_por_churn.png"] else [])

/-- The `stats` dictionary assembled by `eda_and_plots`. -/
structure EdaOut where
  overall : Option ℚ
  rates : List (String × List (Value × ℚ))
  descs : List (String × List (Value × Nat × Option ℚ))
  plots : List String
deriving DecidableEq

/-- `eda_and_plots` (lines 184-224): overall rate, per-category rates,
per-numeric grouped describes, chart names; the loops abort with the
underlying `KeyError` when a present trigger column meets an absent
`Churn`. -/
def eda_and_plots (t : Table) : Except String EdaOut :=
  match collectSteps (rateFor t) catList with
  | .error e => .error e
  | .ok rates =>
      match collectSteps (describeFor t) numList with
      | .error e => .error e
      | .ok descs => .ok ⟨churn_rate t, rates, descs, plotNames t⟩

/- ------------------------------------------------------------------
`main` (lines 332-366): the pipeline and its duplicate-drop
accounting.
------------------------------------------------------------------ -/

/-- Lines 345-351 of `main`: standardize (which already deduplicates),
then measure the length change of a second `drop_duplicates`, then
derive features.  Returns the final table and the reported
`dropped_dupes`. -/
def mainPipeline (raw : Table) : Table × Nat :=
  let df := standardize_columns raw
  let before := nrows df
  if hasCol df "customerID" then
    let df2 := dedupStep df
    (create_features df2, before - nrows df2)
  else (create_features df, 0)

/-- Modelled from the spec: the duplicate drop count the spec promises —
`input_row_count − distinct_identifier_count` restricted to rows whose
outcome value normalizes into {Yes, No} (all rows when no `Churn`
column exists).  Stated over canonical column names, for comparison
with the pipeline's reported count. -/
def specReportedDropCount (t : Table) : Nat :=
  let ids := colOf t "customerID"
  let validIds :=
    match findCol t "Churn" with
    | none => ids
    | some churnCol => applyMask (churnCol.map fun v => churnKeep (churnCell v)) ids
  validIds.length - (dedupFirst validIds).length

/- ------------------------------------------------------------------
Basic lemmas about the table combinators.
------------------------------------------------------------------ -/

theorem findCol_tableMap (g : String → List Value → List Value) (t : Table) (c : String) :
    findCol (tableMap g t) c = (findCol t c).map (g c) := by
  induction t with
  | nil => rfl
  | cons p ps ih =>
    by_cases h : p.1 = c
    · simp [tableMap, findCol, h]
    · simpa [tableMap, findCol, h] using ih

theorem findCol_filterMask (t : Table) (m : List Bool) (c : String) :
    findCol (filterMask t m) c = (findCol t c).map (applyMask m) := by
  simpa [filterMask] using findCol_tableMap (fun _ vs => applyMask m vs) t c

theorem mem_applyMask {v : Value} : ∀ (m : List Bool) (l : List Value),
    v ∈ applyMask m l → v ∈ l := by
  intro m
  induction m with
  | nil => intro l h; simp [applyMask] at h
  | cons b ms ih =>
    intro l h
    cases l with
    | nil => simp [applyMask] at h
    | cons w ws =>
      cases b with
      | false =>
        simp only [applyMask, if_neg Bool.false_ne_true] at h
        exact List.mem_cons_of_mem _ (ih ws h)
      | true =>
        simp only [applyMask, if_pos rfl] at h
        rcases List.mem_cons.mp h with h | h
        · exact h ▸ List.mem_cons_self _ _
        · exact List.mem_cons_of_mem _ (ih ws h)

theorem applyMask_map_self (p : Value → Bool) (l : List Value) :
    applyMask (l.map p) l = l.filter p := by
  induction l with
  | nil => rfl
  | cons v vs ih =>
    cases h : p v <;> simp [applyMask, List.filter_cons, h, ih]

theorem memB_iff (v : Value) (l : List Value) : memB v l = true ↔ v ∈ l := by
  induction l with
  | nil => simp [memB]
  | cons w ws ih =>
    by_cases h : v = w
    · simp [memB, h]
    · simp [memB, h, ih]

theorem applyMask_firstMaskAux (l : List Value) : ∀ seen,
    applyMask (firstMaskAux seen l) l = dedupFirstAux seen l := by
  induction l with
  | nil => intro seen; rfl
  | cons v vs ih =>
    intro seen
    cases h : memB v seen <;>
      simp [firstMaskAux, dedupFirstAux, applyMask, h, ih]

theorem applyMask_firstMask (l : List Value) :
    applyMask (firstMask l) l = dedupFirst l :=
  applyMask_firstMaskAux l []

theorem mem_dedupFirstAux (v : Value) (l : List Value) : ∀ seen,
    v ∈ dedupFirstAux seen l ↔ (v ∈ l ∧ ¬ v ∈ seen) := by
  induction l with
  | nil => intro seen; simp [dedupFirstAux]
  | cons w ws ih =>
    intro seen
    by_cases hv : v = w
    · subst hv
      cases h : memB v seen
      · have hns : ¬ v ∈ seen := fun hc => by simp [(memB_iff v seen).mpr hc] at h
        simp [dedupFirstAux, h, hns]
      · have hs : v ∈ seen := (memB_iff v seen).mp h
        simp [dedupFirstAux, h, ih, hs]
    · cases h : memB w seen <;>
        simp [dedupFirstAux, h, ih, hv, List.mem_cons]

theorem mem_dedupFirst (v : Value) (l : List Value) :
    v ∈ dedupFirst l ↔ v ∈ l := by
  simpa [dedupFirst] using mem_dedupFirstAux v l []

theorem nodup_dedupFirstAux (l : List Value) : ∀ seen,
    (dedupFirstAux seen l).Nodup := by
  induction l with
  | nil => intro seen; simp [dedupFirstAux]
  | cons w ws ih =>
    intro seen
    cases h : memB w seen
    · have he : dedupFirstAux seen (w :: ws) = w :: dedupFirstAux (w :: seen) ws := by
        simp [dedupFirstAux, h]
      rw [he]
      refine List.nodup_cons.mpr ⟨fun hc => ?_, ih (w :: seen)⟩
      have hm := (mem_dedupFirstAux w ws (w :: seen)).mp hc
      exact hm.2 (List.mem_cons_self _ _)
    · have he : dedupFirstAux seen (w :: ws) = dedupFirstAux (w :: seen) ws := by
        simp [dedupFirstAux, h]
      rw [he]
      exact ih (w :: seen)

theorem nodup_dedupFirst (l : List Value) : (dedupFirst l).Nodup :=
  nodup_dedupFirstAux l []

theorem dedupFirstAux_eq_dedupRec (l : List Value) : ∀ seen,
    dedupFirstAux seen l = dedupRec (l.filter fun w => !memB w seen) := by
  induction l with
  | nil => intro seen; simp [dedupFirstAux, dedupRec]
  | cons w ws ih =>
    intro seen
    cases h : memB w seen
    · have hstep : dedupFirstAux seen (w :: ws) = w :: dedupFirstAux (w :: seen) ws := by
        simp [dedupFirstAux, h]
      have hcons : (w :: ws).filter (fun x => !memB x seen)
          = w :: ws.filter fun x => !memB x seen := by
        simp [List.filter_cons, h]
      have hrec : dedupRec (w :: ws.filter fun x => !memB x seen)
          = w :: dedupRec ((ws.filter fun x => !memB x seen).filter fun x => x ≠ w) := by
        rw [dedupRec]
      have hfil : (ws.filter fun x => !memB x seen).filter (fun x => x ≠ w)
          = ws.filter fun x => !memB x (w :: seen) := by
        rw [List.filter_filter]
        refine List.filter_congr fun x _ => ?_
        by_cases hxw : x = w
        · subst hxw; simp [memB, h]
        · simp [memB, hxw]
      rw [hstep, hcons, hrec, hfil, ih (w :: seen)]
    · have hstep : dedupFirstAux seen (w :: ws) = dedupFirstAux (w :: seen) ws := by
        simp [dedupFirstAux, h]
      have hcons : (w :: ws).filter (fun x => !memB x seen)
          = ws.filter fun x => !memB x seen := by
        simp [List.filter_cons, h]
      have hfil : (ws.filter fun x => !memB x (w :: seen))
          = ws.filter fun x => !memB x seen := by
        refine List.filter_congr fun x _ => ?_
        by_cases hxw : x = w
        · subst hxw; simp [memB, h]
        · simp [memB, hxw]
      rw [hstep, hcons, ih (w :: seen), hfil]

theorem dedupFirst_eq_dedupRec (l : List Value) : dedupFirst l = dedupRec l := by
  have h := dedupFirstAux_eq_dedupRec l []
  simpa [dedupFirst, memB, List.filter_true] using h

/- ------------------------------------------------------------------
Tracking a column through the normalizer steps.
------------------------------------------------------------------ -/

theorem findCol_stripStep (t : Table) (c : String) :
    findCol (stripStep t) c
      = (findCol t c).map fun vs => if isObjectCol vs then vs.map stripCell else vs :=
  findCol_tableMap _ t c

theorem findCol_coerceStep_ne (t : Table) (c : String) (h : ¬ c ∈ numericCols) :
    findCol (coerceStep t) c = findCol t c := by
  rw [coerceStep, findCol_tableMap]
  cases hf : findCol t c <;> simp [h]

theorem findCol_collapseStep_ne (t : Table) (c : String) (h : ¬ c ∈ serviceCols) :
    findCol (collapseStep t) c = findCol t c := by
  rw [collapseStep, findCol_tableMap]
  cases hf : findCol t c <;> simp [h]

theorem findCol_seniorStep_ne (t : Table) (c : String) (h : c ≠ "SeniorCitizen") :
    findCol (seniorStep t) c = findCol t c := by
  rw [seniorStep, findCol_tableMap]
  cases hf : findCol t c <;> simp [h]

theorem findCol_churnMapStep_Churn (t : Table) (vs0 : List Value)
    (h : findCol t "Churn" = some vs0) :
    findCol (churnMapStep t) "Churn" = some (vs0.map churnCell) := by
  rw [churnMapStep, findCol_tableMap, h]
  simp

theorem findCol_churnStep_some (t : Table) (vs0 : List Value)
    (h : findCol t "Churn" = some vs0) :
    findCol (churnStep t) "Churn" = some ((vs0.map churnCell).filter churnKeep) := by
  have hc : hasCol t "Churn" = true := by simp [hasCol, h]
  have hmap := findCol_churnMapStep_Churn t vs0 h
  rw [churnStep, if_pos hc, churnFilterStep, findCol_filterMask, hmap, colOf, hmap]
  exact congrArg some (applyMask_map_self churnKeep (vs0.map churnCell))

theorem churnStep_of_absent (t : Table) (h : hasCol t "Churn" = false) :
    churnStep t = t := by
  simp [churnStep, h]

theorem churnKeep_true {v : Value} (h : churnKeep v = true) :
    v = Value.str "Yes" ∨ v = Value.str "No" := by
  simpa [churnKeep] using h

/-- Every `Churn` cell surviving `preDedup` is the text Yes or No. -/
theorem churnCol_preDedup (t : Table) (vs : List Value)
    (h : findCol (preDedup t) "Churn" = some vs) :
    ∀ v ∈ vs, v = Value.str "Yes" ∨ v = Value.str "No" := by
  rw [preDedup, findCol_seniorStep_ne _ _ (by decide),
      findCol_collapseStep_ne _ _ (by decide)] at h
  cases hc : findCol (coerceStep (stripStep (renameStep t))) "Churn" with
  | none =>
    rw [churnStep_of_absent _ (by simp [hasCol, hc]), hc] at h
    exact absurd h (by simp)
  | some vs0 =>
    rw [findCol_churnStep_some _ _ hc] at h
    intro v hv
    have hkeep := List.of_mem_filter (Option.some.inj h ▸ hv)
    exact churnKeep_true hkeep

/-- Every `Churn` cell of the normalized output is the text Yes or No. -/
theorem churnCol_standardize (t : Table) (vs : List Value)
    (h : findCol (standardize_columns t) "Churn" = some vs) :
    ∀ v ∈ vs, v = Value.str "Yes" ∨ v = Value.str "No" := by
  rw [standardize_columns, dedupStep] at h
  by_cases hid : hasCol (preDedup t) "customerID"
  · rw [if_pos hid, findCol_filterMask] at h
    cases hc : findCol (preDedup t) "Churn" with
    | none => rw [hc] at h; exact absurd h (by simp)
    | some ws =>
      rw [hc] at h
      intro v hv
      have hw : v ∈ ws := mem_applyMask _ _ (Option.some.inj h ▸ hv)
      exact churnCol_preDedup t ws hc v hw
  · rw [if_neg hid] at h
    exact churnCol_preDedup t vs h

/- ------------------------------------------------------------------
Counting lemmas for the outcome column.
------------------------------------------------------------------ -/

theorem countYes_add_countNo (vs : List Value)
    (h : ∀ v ∈ vs, v = Value.str "Yes" ∨ v = Value.str "No") :
    countYes vs + countNo vs = vs.length := by
  induction vs with
  | nil => simp [countYes, countNo]
  | cons v rest ih =>
    have hrest := ih fun w hw => h w (List.mem_cons_of_mem v hw)
    have hyn : (Value.str "Yes" : Value) ≠ Value.str "No" := by decide
    rcases h v (List.mem_cons_self v rest) with hv | hv <;> subst hv
    · have h1 : countYes (Value.str "Yes" :: rest) = countYes rest + 1 := by
        simp [countYes, List.countP_cons]
      have h2 : countNo (Value.str "Yes" :: rest) = countNo rest := by
        simp [countNo, List.countP_cons, hyn]
      rw [h1, h2, List.length_cons]
      omega
    · have h1 : countYes (Value.str "No" :: rest) = countYes rest := by
        simp [countYes, List.countP_cons, hyn.symm]
      have h2 : countNo (Value.str "No" :: rest) = countNo rest + 1 := by
        simp [countNo, List.countP_cons]
      rw [h1, h2, List.length_cons]
      omega

theorem countNonMissing_of_yesno (vs : List Value)
    (h : ∀ v ∈ vs, v = Value.str "Yes" ∨ v = Value.str "No") :
    countNonMissing vs = vs.length := by
  rw [countNonMissing, List.countP_eq_length]
  intro v hv
  rcases h v hv with hv2 | hv2 <;> subst hv2 <;> decide

/- ------------------------------------------------------------------
Lemmas for the feature deriver.
------------------------------------------------------------------ -/

theorem findCol_overwrite (c : String) (vs : List Value) :
    ∀ t : Table, hasCol t c = true →
      findCol (t.map fun p => if p.1 = c then (c, vs) else p) c = some vs := by
  intro t
  induction t with
  | nil => intro h; simp [hasCol, findCol] at h
  | cons p ps ih =>
    intro h
    by_cases hp : p.1 = c
    · simp [findCol, hp]
    · have hps : hasCol ps c = true := by
        simpa [hasCol, findCol, hp] using h
      simpa [findCol, hp] using ih hps

theorem findCol_append_new (c : String) (vs : List Value) :
    ∀ t : Table, findCol t c = none →
      findCol (t ++ [(c, vs)]) c = some vs := by
  intro t
  induction t with
  | nil => intro _; simp [findCol]
  | cons p ps ih =>
    intro h
    by_cases hp : p.1 = c
    · rw [findCol, if_pos hp] at h
      exact absurd h (by simp)
    · rw [findCol, if_neg hp] at h
      simpa [findCol, hp] using ih h

theorem findCol_setCol (t : Table) (c : String) (vs : List Value) :
    findCol (setCol t c vs) c = some vs := by
  rw [setCol]
  by_cases h : hasCol t c
  · rw [if_pos h]
    exact findCol_overwrite c vs t h
  · rw [if_neg h]
    have hn : findCol t c = none := by
      cases hf : findCol t c
      · rfl
      · rw [hasCol, hf] at h
        simp at h
    exact findCol_append_new c vs t hn

/- ------------------------------------------------------------------
Lemmas for the aggregation loops.
------------------------------------------------------------------ -/

theorem collectSteps_ok {α : Type} (f : String → Except String (Option α)) :
    ∀ l : List String, (∀ c ∈ l, ∃ x, f c = .ok x) →
      ∃ ys, collectSteps f l = .ok ys := by
  intro l
  induction l with
  | nil => intro _; exact ⟨[], rfl⟩
  | cons c rest ih =>
    intro h
    obtain ⟨x, hx⟩ := h c (List.mem_cons_self c rest)
    obtain ⟨ys, hys⟩ := ih fun d hd => h d (List.mem_cons_of_mem c hd)
    cases x with
    | none => exact ⟨ys, by rw [collectSteps, hx, hys]⟩
    | some v => exact ⟨v :: ys, by rw [collectSteps, hx, hys]⟩

theorem findCol_some_of_hasCol (t : Table) (c : String) (h : hasCol t c = true) :
    ∃ vs, findCol t c = some vs := by
  cases hf : findCol t c
  · rw [hasCol, hf] at h
    exact absurd h (by simp)
  · exact ⟨_, rfl⟩

theorem rateFor_ok (t : Table) (cat : String) (hch : hasCol t "Churn" = true) :
    ∃ x, rateFor t cat = .ok x := by
  rw [rateFor]
  by_cases h : hasCol t cat
  · obtain ⟨churnCol, hc⟩ := findCol_some_of_hasCol t "Churn" hch
    rw [if_pos h, hc]
    exact ⟨_, rfl⟩
  · rw [if_neg h]
    exact ⟨_, rfl⟩

theorem describeFor_ok (t : Table) (num : String) (hch : hasCol t "Churn" = true) :
    ∃ x, describeFor t num = .ok x := by
  rw [describeFor]
  by_cases h : hasCol t num
  · obtain ⟨churnCol, hc⟩ := findCol_some_of_hasCol t "Churn" hch
    rw [if_pos h, hc]
    exact ⟨_, rfl⟩
  · rw [if_neg h]
    exact ⟨_, rfl⟩

theorem eda_ok_of_churn (t : Table) (hch : hasCol t "Churn" = true) :
    ∃ out, eda_and_plots t = .ok out := by
  obtain ⟨rs, hrs⟩ := collectSteps_ok (rateFor t) catList fun c _ => rateFor_ok t c hch
  obtain ⟨ds, hds⟩ := collectSteps_ok (describeFor t) numList fun c _ => describeFor_ok t c hch
  exact ⟨_, by rw [eda_and_plots, hrs, hds]⟩

theorem findCol_none_of_not_hasCol (t : Table) (c : String) (h : hasCol t c = false) :
    findCol t c = none := by
  cases hf : findCol t c
  · rfl
  · rw [hasCol, hf] at h
    exact absurd h (by simp)

theorem eda_error_of_missing_churn (t : Table) (hch : hasCol t "Churn" = false)
    (hmc : hasCol t "MonthlyCharges" = true) :
    ∃ msg, eda_and_plots t = .error msg := by
  have hfc : findCol t "Churn" = none := findCol_none_of_not_hasCol t "Churn" hch
  have h1 : describeFor t "MonthlyCharges" = .error "KeyError: Churn" := by
    rw [describeFor, if_pos hmc, hfc]
  have hdesc : collectSteps (describeFor t) numList = .error "KeyError: Churn" := by
    rw [show numList = "MonthlyCharges" :: ["TotalCharges", "AverageMonthlyCharge", "tenure"]
          from rfl,
        collectSteps, h1]
  rw [eda_and_plots]
  cases hr : collectSteps (rateFor t) catList with
  | error e => exact ⟨e, rfl⟩
  | ok rs => exact ⟨"KeyError: Churn", by rw [hdesc]⟩

/- ------------------------------------------------------------------
The mean test of the `SeniorCitizen` normalization.
------------------------------------------------------------------ -/

theorem seniorMean_iff (vs : List Value) :
    vs.length < 2 * numCount vs ↔
      (1 / 2 : ℚ) < (numCount vs : ℚ) / (vs.length : ℚ) := by
  constructor
  · intro h
    have hle : numCount vs ≤ vs.length := List.countP_le_length _
    have hpos : 0 < vs.length := by omega
    rw [div_lt_div_iff₀ (by norm_num) (by exact_mod_cast hpos)]
    have h2 : (vs.length : ℚ) < 2 * (numCount vs : ℚ) := by exact_mod_cast h
    linarith
  · intro h
    by_contra hc
    push_neg at hc
    rcases Nat.eq_zero_or_pos vs.length with h0 | hpos
    · have hn : numCount vs = 0 := by
        have := List.countP_le_length (l := vs) (p := fun v => (toNumeric v).isSome)
        rw [numCount]
        omega
      rw [h0, hn] at h
      norm_num at h
    · have hq : (numCount vs : ℚ) / (vs.length : ℚ) ≤ 1 / 2 := by
        rw [div_le_div_iff₀ (by exact_mod_cast hpos) (by norm_num)]
        have h2 : 2 * (numCount vs : ℚ) ≤ (vs.length : ℚ) := by exact_mod_cast hc
        linarith
      linarith

/- ------------------------------------------------------------------
Lemmas for the loader.
------------------------------------------------------------------ -/

theorem flattenRecords_ok (recs : List Json)
    (h : ∀ r ∈ recs, ∃ fs, r = Json.obj fs) :
    ∃ flats, flattenRecords recs = .ok flats ∧ flats.length = recs.length := by
  induction recs with
  | nil => exact ⟨[], rfl, rfl⟩
  | cons r rest ih =>
    obtain ⟨fs, hr⟩ := h r (List.mem_cons_self r rest)
    subst hr
    obtain ⟨flats, hf, hl⟩ := ih fun x hx => h x (List.mem_cons_of_mem _ hx)
    refine ⟨flattenFields "" fs :: flats, ?_, by simp [hl]⟩
    rw [flattenRecords, hf]

theorem normalizeRecords_ok (recs : List Json)
    (h : ∀ r ∈ recs, ∃ fs, r = Json.obj fs) :
    ∃ t, normalizeRecords recs = .ok t ∧ ∀ p ∈ t, p.2.length = recs.length := by
  obtain ⟨flats, hf, hl⟩ := flattenRecords_ok recs h
  refine ⟨_, by rw [normalizeRecords, hf], ?_⟩
  intro p hp
  obtain ⟨k, _, hpk⟩ := List.mem_map.mp hp
  rw [← hpk]
  simp [hl]

theorem firstArrField_of_split (fields : JsonFields) (l1 : List (String × Json))
    (k : String) (xs : JsonList) (l2 : List (String × Json))
    (h : fields.toList = l1 ++ (k, Json.arr xs) :: l2)
    (hnone : ∀ p ∈ l1, arrOf p.2 = none) :
    firstArrField fields = some xs := by
  match fields with
  | .nil =>
    rw [JsonFields.toList] at h
    exact absurd h (by cases l1 <;> simp)
  | .cons k0 v0 rest =>
    rw [JsonFields.toList] at h
    cases l1 with
    | nil =>
      rw [List.nil_append] at h
      obtain ⟨hh, _⟩ := List.cons.inj h
      have hv : v0 = Json.arr xs := (Prod.ext_iff.mp hh).2
      rw [firstArrField, hv]
      rfl
    | cons p l1t =>
      rw [List.cons_append] at h
      obtain ⟨hh, hrest⟩ := List.cons.inj h
      have hv0 : arrOf v0 = none := by
        have hp := hnone p (List.mem_cons_self p l1t)
        rw [← hh] at hp
        exact hp
      rw [firstArrField, hv0]
      exact firstArrField_of_split rest l1t k xs l2 hrest
        fun q hq => hnone q (List.mem_cons_of_mem p hq)

theorem firstArrField_none (fields : JsonFields)
    (h : ∀ p ∈ fields.toList, arrOf p.2 = none) :
    firstArrField fields = none := by
  match fields with
  | .nil => rfl
  | .cons k0 v0 rest =>
    have hv0 : arrOf v0 = none :=
      h (k0, v0) (by rw [JsonFields.toList]; exact List.mem_cons_self _ _)
    rw [firstArrField, hv0]
    exact firstArrField_none rest
      fun q hq => h q (by rw [JsonFields.toList]; exact List.mem_cons_of_mem _ hq)

theorem collapseCell_idem (v : Value) :
    collapseCell (collapseCell v) = collapseCell v := by
  cases v with
  | str s =>
    by_cases h : s ∈ collapseKeys
    · have hno : ¬ ("No" ∈ collapseKeys) := by decide
      simp [collapseCell, h, hno]
    · simp [collapseCell, h]
  | null => rfl
  | bool b => rfl
  | num q => rfl
  | arr xs => rfl

theorem collapseCol_idem (l : List Value) :
    (l.map collapseCell).map collapseCell = l.map collapseCell := by
  rw [List.map_map]
  exact List.map_congr_left fun v _ => collapseCell_idem v

/- ------------------------------------------------------------------
The claims.
------------------------------------------------------------------ -/

/-- Claim C1: the spec promises that the reported duplicate drop count
equals valid-outcome input rows minus distinct identifiers (1 for a
two-row input sharing one identifier).  The code deduplicates inside
`standardize_columns` and then measures the length change of a second
`drop_duplicates` in `main`, so it reports 0 on that input while the
promised count is 1. -/
theorem claim_C1_drop_count :
    (mainPipeline [("customerID", [Value.str "A", Value.str "A"]),
        ("Churn", [Value.str "Yes", Value.str "Yes"])]).2 = 0 ∧
    specReportedDropCount [("customerID", [Value.str "A", Value.str "A"]),
        ("Churn", [Value.str "Yes", Value.str "Yes"])] = 1 :=
  ⟨by decide, by decide⟩

/-- Claim C2: the spec says every aggregation step checks its optional
columns and degrades silently, so a table with `MonthlyCharges` but no
`Churn` must aggregate successfully.  The describe loop checks only the
numeric column and then groups by `Churn`, so that table raises a
`KeyError`; with `Churn` present the stage does succeed. -/
theorem claim_C2_missing_churn :
    eda_and_plots [("MonthlyCharges", [Value.num 10])]
      = Except.error "KeyError: Churn" ∧
    ∃ out, eda_and_plots [("Churn", [Value.str "Yes", Value.str "No"]),
        ("MonthlyCharges", [Value.num 10, Value.num 20])] = Except.ok out :=
  ⟨rfl, eda_ok_of_churn _ (by decide)⟩

/-- Claim C3, counterexample: the loader does not surface an error on a
bare scalar — it returns an empty table (`pd.DataFrame()`). -/
theorem claim_C3_counterexample :
    to_dataframe (Json.num 5) = Except.ok ([] : Table) := rfl

/-- Claim C3, amended: an array of objects maps to one row per element
over the flattened key-path columns; an object maps to the table of its
first array-valued field; an object with no array-valued field maps to
a one-row table; and any other input (a bare scalar) maps to an empty
table rather than an error. -/
theorem claim_C3_amended :
    (∀ rl : JsonList, (∀ r ∈ rl.toList, ∃ fs, r = Json.obj fs) →
      ∃ t, to_dataframe (Json.arr rl) = Except.ok t ∧
        ∀ p ∈ t, p.2.length = rl.toList.length) ∧
    (∀ (fields : JsonFields) (l1 : List (String × Json)) (k : String)
        (xs : JsonList) (l2 : List (String × Json)),
      fields.toList = l1 ++ (k, Json.arr xs) :: l2 →
      (∀ p ∈ l1, arrOf p.2 = none) →
      to_dataframe (Json.obj fields) = normalizeRecords xs.toList) ∧
    (∀ fields : JsonFields, (∀ p ∈ fields.toList, arrOf p.2 = none) →
      to_dataframe (Json.obj fields) = normalizeRecords [Json.obj fields] ∧
      ∃ t, normalizeRecords [Json.obj fields] = Except.ok t ∧
        ∀ p ∈ t, p.2.length = 1) ∧
    (∀ q : ℚ, to_dataframe (Json.num q) = Except.ok ([] : Table)) ∧
    (∀ s : String, to_dataframe (Json.str s) = Except.ok ([] : Table)) ∧
    (∀ b : Bool, to_dataframe (Json.bool b) = Except.ok ([] : Table)) ∧
    to_dataframe Json.null = Except.ok ([] : Table) := by
  refine ⟨?_, ?_, ?_, fun q => rfl, fun s => rfl, fun b => rfl, rfl⟩
  · intro rl h
    obtain ⟨t, ht, hlen⟩ := normalizeRecords_ok rl.toList h
    exact ⟨t, ht, hlen⟩
  · intro fields l1 k xs l2 h hnone
    have hf := firstArrField_of_split fields l1 k xs l2 h hnone
    show (match firstArrField fields with
          | some xs => normalizeRecords xs.toList
          | none => normalizeRecords [Json.obj fields]) = normalizeRecords xs.toList
    rw [hf]
  · intro fields h
    have hf := firstArrField_none fields h
    constructor
    · show (match firstArrField fields with
            | some xs => normalizeRecords xs.toList
            | none => normalizeRecords [Json.obj fields]) = normalizeRecords [Json.obj fields]
      rw [hf]
    · exact normalizeRecords_ok [Json.obj fields] (by simp)

theorem claim_C3_witness :
    to_dataframe (Json.obj (JsonFields.cons "meta" (Json.num 1)
        (JsonFields.cons "data"
          (Json.arr (JsonList.cons (Json.obj JsonFields.nil) JsonList.nil))
          JsonFields.nil)))
      = normalizeRecords [Json.obj JsonFields.nil] :=
  claim_C3_amended.2.1
    (JsonFields.cons "meta" (Json.num 1)
      (JsonFields.cons "data"
        (Json.arr (JsonList.cons (Json.obj JsonFields.nil) JsonList.nil))
        JsonFields.nil))
    [("meta", Json.num 1)] "data" (JsonList.cons (Json.obj JsonFields.nil) JsonList.nil) []
    (by decide) (by decide)

/-- Claim C4: every row of the normalized output has `Churn` equal to
the text Yes or No; other raw values are removed by the filter, not by
raising. -/
theorem claim_C4_churn_yes_no (t : Table) (vs : List Value)
    (h : findCol (standardize_columns t) "Churn" = some vs) :
    ∀ v ∈ vs, v = Value.str "Yes" ∨ v = Value.str "No" :=
  churnCol_standardize t vs h

theorem claim_C4_witness :
    Value.str "Yes" = Value.str "Yes" ∨ Value.str "Yes" = Value.str "No" :=
  claim_C4_churn_yes_no
    [("Churn", [Value.str "Yes", Value.str "No", Value.str "Unknown"])]
    [Value.str "Yes", Value.str "No"] (by decide)
    (Value.str "Yes") (by decide)

/-- Claim C5: with both source columns present, `AverageMonthlyCharge`
is the row-wise `avgCell` combination; a cell is a (finite) number
exactly when tenure is a number greater than 0 and `TotalCharges` is a
number, in which case it equals their quotient, and is missing
otherwise; with either source column absent the table is returned
unchanged. -/
theorem claim_C5_average_charge (t : Table) :
    ((hasCol t "TotalCharges" && hasCol t "tenure") = true →
      ∀ tns tcs, findCol t "tenure" = some tns → findCol t "TotalCharges" = some tcs →
        findCol (create_features t) "AverageMonthlyCharge"
          = some (List.zipWith avgCell tns tcs)) ∧
    (∀ tn tc,
      (avgCell tn tc = Value.null ∨ ∃ q, avgCell tn tc = Value.num q) ∧
      ((∃ q, avgCell tn tc = Value.num q) ↔
        ∃ a b, tn = Value.num a ∧ 0 < a ∧ tc = Value.num b) ∧
      (∀ a b, tn = Value.num a → 0 < a → tc = Value.num b →
        avgCell tn tc = Value.num (b / a))) ∧
    ((hasCol t "TotalCharges" && hasCol t "tenure") = false → create_features t = t) := by
  refine ⟨?_, ?_, ?_⟩
  · intro hb tns tcs htn htc
    have h1 : colOf t "tenure" = tns := by rw [colOf, htn]; rfl
    have h2 : colOf t "TotalCharges" = tcs := by rw [colOf, htc]; rfl
    rw [create_features, if_pos hb, h1, h2, findCol_setCol]
  · intro tn tc
    refine ⟨?_, ⟨?_, ?_⟩, ?_⟩
    · cases tn with
      | num a =>
        by_cases ha : 0 < a
        · cases tc with
          | num b => exact Or.inr ⟨b / a, by simp [avgCell, ha]⟩
          | null => exact Or.inl (by simp [avgCell, ha])
          | bool b => exact Or.inl (by simp [avgCell, ha])
          | str s => exact Or.inl (by simp [avgCell, ha])
          | arr xs => exact Or.inl (by simp [avgCell, ha])
        · exact Or.inl (by simp [avgCell, ha])
      | null => exact Or.inl rfl
      | bool b => exact Or.inl rfl
      | str s => exact Or.inl rfl
      | arr xs => exact Or.inl rfl
    · rintro ⟨q, hq⟩
      cases tn with
      | num a =>
        by_cases ha : 0 < a
        · cases tc with
          | num b => exact ⟨a, b, rfl, ha, rfl⟩
          | null => simp [avgCell, ha] at hq
          | bool b => simp [avgCell, ha] at hq
          | str s => simp [avgCell, ha] at hq
          | arr xs => simp [avgCell, ha] at hq
        · simp [avgCell, ha] at hq
      | null => simp [avgCell] at hq
      | bool b => simp [avgCell] at hq
      | str s => simp [avgCell] at hq
      | arr xs => simp [avgCell] at hq
    · rintro ⟨a, b, h1, ha, h2⟩
      subst h1; subst h2
      exact ⟨b / a, by simp [avgCell, ha]⟩
    · intro a b h1 ha h2
      subst h1; subst h2
      simp [avgCell, ha]
  · intro h
    simp [create_features, h]

theorem claim_C5_witness :
    findCol (create_features [("tenure", [Value.num 0, Value.num 2]),
        ("TotalCharges", [Value.num 50, Value.num 10])]) "AverageMonthlyCharge"
      = some [Value.null, Value.num 5] ∧
    avgCell (Value.num 0) (Value.num 50) = Value.null := by
  have h := (claim_C5_average_charge [("tenure", [Value.num 0, Value.num 2]),
      ("TotalCharges", [Value.num 50, Value.num 10])]).1 (by decide)
      [Value.num 0, Value.num 2] [Value.num 50, Value.num 10] (by decide) (by decide)
  have e : List.zipWith avgCell [Value.num 0, Value.num 2] [Value.num 50, Value.num 10]
      = [Value.null, Value.num 5] := by
    norm_num [avgCell]
  rw [h, e]
  exact ⟨rfl, by norm_num [avgCell]⟩

/-- Claim C6: the overall rate is unavailable (NaN) without a `Churn`
column; on the normalized table it equals 100 × #Yes / (#Yes + #No),
and every surviving `Churn` cell is non-missing. -/
theorem claim_C6_overall_rate (t : Table) :
    (hasCol (standardize_columns t) "Churn" = false →
      churn_rate (standardize_columns t) = none) ∧
    (∀ vs, findCol (standardize_columns t) "Churn" = some vs → vs ≠ [] →
      churn_rate (standardize_columns t)
          = some (100 * (countYes vs : ℚ) / ((countYes vs : ℚ) + (countNo vs : ℚ))) ∧
        countNonMissing vs = vs.length) := by
  constructor
  · intro h
    rw [churn_rate, findCol_none_of_not_hasCol _ _ h]
  · intro vs hv hne
    have hyn := churnCol_standardize t vs hv
    have hcnt := countYes_add_countNo vs hyn
    refine ⟨?_, countNonMissing_of_yesno vs hyn⟩
    rw [churn_rate, hv]
    show (if vs.length = 0 then none
          else some ((countYes vs : ℚ) / (vs.length : ℚ) * 100))
        = some (100 * (countYes vs : ℚ) / ((countYes vs : ℚ) + (countNo vs : ℚ)))
    rw [if_neg (fun h0 => hne (List.length_eq_zero.mp h0))]
    congr 1
    have hlen : (vs.length : ℚ) = (countYes vs : ℚ) + (countNo vs : ℚ) := by
      exact_mod_cast hcnt.symm
    rw [hlen]
    ring

theorem claim_C6_witness :
    churn_rate (standardize_columns
        [("Churn", [Value.str "Yes", Value.str "No", Value.str "Unknown"])]) = some 50 := by
  have h := ((claim_C6_overall_rate
      [("Churn", [Value.str "Yes", Value.str "No", Value.str "Unknown"])]).2
      [Value.str "Yes", Value.str "No"] (by decide) (by decide)).1
  have h1 : countYes [Value.str "Yes", Value.str "No"] = 1 := by decide
  have h2 : countNo [Value.str "Yes", Value.str "No"] = 1 := by decide
  rw [h1, h2] at h
  rw [h]
  norm_num

/-- Claim C7: when strictly more than half of the `SeniorCitizen`
cells parse as numbers (equivalently, the rational mean of the
parseable-indicator exceeds 1/2), parsed-1 cells map to "Yes" and all
other cells to "No"; otherwise every cell is title-cased as text. -/
theorem claim_C7_senior_citizen (vs : List Value) :
    (vs.length < 2 * numCount vs →
      (1 / 2 : ℚ) < (numCount vs : ℚ) / (vs.length : ℚ) ∧
      seniorNormalize vs
        = vs.map fun v => Value.str (if toNumeric v = some 1 then "Yes" else "No")) ∧
    (¬ vs.length < 2 * numCount vs →
      ¬ (1 / 2 : ℚ) < (numCount vs : ℚ) / (vs.length : ℚ) ∧
      seniorNormalize vs = vs.map fun v => Value.str (titleCase (astypeStr v))) := by
  constructor
  · intro h
    exact ⟨(seniorMean_iff vs).mp h, by rw [seniorNormalize, if_pos h]⟩
  · intro h
    exact ⟨fun hc => h ((seniorMean_iff vs).mpr hc), by rw [seniorNormalize, if_neg h]⟩

theorem claim_C7_witness :
    seniorNormalize [Value.num 0, Value.num 1, Value.num 1, Value.num 0]
      = [Value.str "No", Value.str "Yes", Value.str "Yes", Value.str "No"] ∧
    findCol (standardize_columns [("SeniorCitizen",
        [Value.num 0, Value.num 1, Value.num 1, Value.num 0])]) "SeniorCitizen"
      = some [Value.str "No", Value.str "Yes", Value.str "Yes", Value.str "No"] := by
  have h := (claim_C7_senior_citizen
      [Value.num 0, Value.num 1, Value.num 1, Value.num 0]).1 (by decide)
  constructor
  · rw [h.2]
    decide
  · decide

/-- Claim C8: when `customerID` is present, the normalized output's
identifier column is the first-occurrence deduplication of the
pre-dedup column — pairwise distinct, order-preserving (also in the
recursive keep-head-drop-duplicates form), and covering exactly the
input identifiers. -/
theorem claim_C8_dedup_first (t : Table) (ids : List Value)
    (h : findCol (preDedup t) "customerID" = some ids) :
    findCol (standardize_columns t) "customerID" = some (dedupFirst ids) ∧
    (dedupFirst ids).Nodup ∧
    dedupFirst ids = dedupRec ids ∧
    ∀ v, v ∈ dedupFirst ids ↔ v ∈ ids := by
  have hid : hasCol (preDedup t) "customerID" = true := by simp [hasCol, h]
  refine ⟨?_, nodup_dedupFirst ids, dedupFirst_eq_dedupRec ids, fun v => mem_dedupFirst v ids⟩
  rw [standardize_columns, dedupStep, if_pos hid, findCol_filterMask, h, colOf, h]
  exact congrArg some (applyMask_firstMask ids)

theorem claim_C8_witness :
    findCol (standardize_columns [("customerID",
        [Value.str "A", Value.str "B", Value.str "A"])]) "customerID"
      = some (dedupFirst [Value.str "A", Value.str "B", Value.str "A"]) ∧
    (dedupFirst [Value.str "A", Value.str "B", Value.str "A"]).Nodup ∧
    dedupFirst [Value.str "A", Value.str "B", Value.str "A"]
      = [Value.str "A", Value.str "B"] := by
  have h := claim_C8_dedup_first
      [("customerID", [Value.str "A", Value.str "B", Value.str "A"])]
      [Value.str "A", Value.str "B", Value.str "A"] (by decide)
  exact ⟨h.1, h.2.1, by decide⟩

/-- Claim C9: the placeholder-collapsing replacement is idempotent,
on every cell and hence on the whole collapsing step. -/
theorem claim_C9_collapse_idempotent (t : Table) :
    collapseStep (collapseStep t) = collapseStep t ∧
    ∀ v, collapseCell (collapseCell v) = collapseCell v := by
  refine ⟨?_, collapseCell_idem⟩
  rw [collapseStep, collapseStep, tableMap, tableMap, List.map_map]
  refine List.map_congr_left fun p _ => ?_
  by_cases h : p.1 ∈ serviceCols
  · simp [Function.comp, h]
    exact fun a _ => collapseCell_idem a
  · simp [Function.comp, h]

/-- Claim C10: stringification before trimming turns every cell of an
object-dtype column — missing cells included — into non-missing text;
a missing cell becomes the text "nan", a missing `Churn` cell becomes
"Nan" after title-casing, and its row is dropped by the Yes/No filter
rather than kept as missing. -/
theorem claim_C10_missing_becomes_text (t : Table) :
    (∀ c vs, findCol t c = some vs → isObjectCol vs = true →
      findCol (stripStep t) c = some (vs.map stripCell) ∧
      ∀ v ∈ vs.map stripCell, ∃ s, v = Value.str s) ∧
    stripCell Value.null = Value.str "nan" ∧
    churnCell Value.null = Value.str "Nan" ∧
    findCol (standardize_columns [("Churn", [Value.str " Yes ", Value.null])]) "Churn"
      = some [Value.str "Yes"] := by
  refine ⟨?_, by decide, by decide, by decide⟩
  intro c vs hv hobj
  rw [findCol_stripStep, hv]
  refine ⟨by simp [hobj], ?_⟩
  intro v hvm
  obtain ⟨w, _, hw⟩ := List.mem_map.mp hvm
  exact ⟨stripStr (astypeStr w), by rw [← hw]; rfl⟩

theorem claim_C10_witness :
    findCol (stripStep [("X", [Value.str " a ", Value.null])]) "X"
      = some [Value.str "a", Value.str "nan"] := by
  have h := (claim_C10_missing_becomes_text [("X", [Value.str " a ", Value.null])]).1
      "X" [Value.str " a ", Value.null] (by decide) (by decide)
  rw [h.1]
  decide
